import Mathlib

/-
Shallow embedding of the MichiganSolarCarTeam/thread-pool repository.

The repository contains two near-identical revisions of a single C++ class
`ThreadPool`:
  * `src/ThreadPool.hpp`   — the non-blocking API revision (namespace `V1` below);
  * `src/unnamed/part_000` — the revision that adds the blocking API
    (`run_tasks`, `run_loop`) on top of the same core (namespace `V2` below).

The shared mutable state of the class is
    std::atomic<bool> running = true;
    std::vector<std::thread> threads;
    std::queue<Job> jobs;
(the mutex and condition variable are synchronization devices, not data), so a
pool state is modelled as a record of the running flag, the list of thread
handles (each thread runs the same `worker_loop` closure, recorded by the
`ThreadCode.workerLoop` tag), and the job queue as a list whose head is the
queue front.  Task payloads are opaque callables; they are modelled by an
arbitrary type parameter `τ`.
-/

namespace ThreadPoolModel

/-- Models `struct Job`, wrapping a single task payload (C++ member
`std::function<void()> job`). -/
structure Job (τ : Type) where
  job : τ
deriving DecidableEq, Repr

/-- Models what a pool thread executes: every thread spawned by `reset` runs
the same closure `[this] { worker_loop(); }`. -/
inductive ThreadCode where
  | workerLoop
deriving DecidableEq, Repr

/-- Models the data members of class `ThreadPool`: the atomic running flag,
the vector of worker-thread handles and the FIFO job queue (head of the list
is the front of the `std::queue`). -/
structure PoolState (τ : Type) where
  running : Bool
  threads : List ThreadCode
  jobs : List (Job τ)
deriving DecidableEq, Repr

/-- Models the action a worker takes in one pass of `worker_loop` after the
condition-variable wait returns: either the stop branch `return`s, or the
worker has removed the front job and runs it. -/
inductive WorkerAction (τ : Type) where
  | exitLoop
  | runTask (j : Job τ)
deriving DecidableEq, Repr

/-- Models the observable steps of the destructor `~ThreadPool`: write
`running = false`, broadcast `cv.notify_all()`, then `thread.join()` once per
element of `threads`. -/
inductive DtorEvent where
  | setRunningFalse
  | notifyAll
  | joinThread
deriving DecidableEq, Repr

/-- Events of one iteration of the `worker_loop` body, from the construction
of the `unique_lock` to either executing the taken job or leaving the loop:
lock acquisition, `cv.wait` returning (with the lock re-held), the
`!running.load()` check, `jobs.pop()`, the lock release (`lock.unlock()` on
the execute path, the `unique_lock` destructor on the return path), running
the job body, and the `return` that leaves the loop. -/
inductive LockEvent where
  | lockAcquire
  | waitReturn
  | stopCheck
  | popFront
  | lockRelease
  | execTask
  | exitLoop
deriving DecidableEq, Repr

namespace V1

/-- Member initializers of `ThreadPool` in src/ThreadPool.hpp: `running = true`,
empty thread vector, empty job queue. -/
def initState (τ : Type) : PoolState τ :=
  { running := true, threads := [], jobs := [] }

/-- Models the grow loop of `reset` in src/ThreadPool.hpp lines 72-75:
`size_t i = threads.size(); for (; i < num_threads; i++)
threads.emplace_back([this] { worker_loop(); });`.  The loop index `i` always
equals the current `threads.size()`, so the loop runs while the vector is
shorter than `num_threads`, appending one worker-loop thread per step. -/
def growThreads (ts : List ThreadCode) (num_threads : Nat) : List ThreadCode :=
  if h : ts.length < num_threads then
    growThreads (ts ++ [ThreadCode.workerLoop]) num_threads
  else
    ts
termination_by num_threads - ts.length
decreasing_by simp; omega

/-- Models `ThreadPool::reset` in src/ThreadPool.hpp lines 70-79.  When
`num_threads >= threads.size()` it appends new worker threads and returns
normally; otherwise it throws `std::runtime_error("Cannot downscale thread
pool")` before mutating anything, so the pool state is returned unchanged
together with the exception message. -/
def reset (s : PoolState τ) (num_threads : Nat) : PoolState τ × Option String :=
  if s.threads.length ≤ num_threads then
    ({ s with threads := growThreads s.threads num_threads }, none)
  else
    (s, some "Cannot downscale thread pool")

/-- Models the default constructor `ThreadPool()` in src/ThreadPool.hpp lines
48-50: it calls `reset(std::thread::hardware_concurrency())`.  The platform
hardware-concurrency hint is an external input and is passed as a parameter. -/
def constructDefault (τ : Type) (hardware_concurrency : Nat) :
    PoolState τ × Option String :=
  reset (initState τ) hardware_concurrency

/-- Models the explicit constructor `ThreadPool(size_t num_threads)` in
src/ThreadPool.hpp lines 62-64: it calls `reset(num_threads)`. -/
def constructWith (τ : Type) (num_threads : Nat) : PoolState τ × Option String :=
  reset (initState τ) num_threads

/-- Models `ThreadPool::size` in src/ThreadPool.hpp lines 82-84: returns
`threads.size()`. -/
def size (s : PoolState τ) : Nat :=
  s.threads.length

/-- Models `ThreadPool::detach_task` in src/ThreadPool.hpp lines 88-92: under
the lock, `jobs.push({std::move(task)})` appends one job at the tail of the
queue, then `cv.notify_one()`. -/
def detach_task (s : PoolState τ) (task : τ) : PoolState τ :=
  { s with jobs := s.jobs ++ [Job.mk task] }

/-- Models the vector overload of `ThreadPool::detach_tasks` in
src/ThreadPool.hpp lines 96-102: under one lock acquisition,
`for (auto& task : tasks) jobs.push({std::move(task)})`, then
`cv.notify_all()`. -/
def detach_tasks (s : PoolState τ) (tasks : List τ) : PoolState τ :=
  { s with jobs := tasks.foldl (fun q t => q ++ [Job.mk t]) s.jobs }

/-- Models the array overload of `ThreadPool::detach_tasks` in
src/ThreadPool.hpp lines 107-113: under one lock acquisition,
`for (size_t i = 0; i < num_tasks; i++) jobs.push({std::move(tasks[i])})`,
then `cv.notify_all()`.  The array is modelled by its indexing function. -/
def detach_tasks_array (s : PoolState τ) (tasks : Nat → τ) (num_tasks : Nat) :
    PoolState τ :=
  { s with
    jobs := (List.range num_tasks).foldl (fun q i => q ++ [Job.mk (tasks i)]) s.jobs }

/-- Models one pass of `ThreadPool::worker_loop` in src/ThreadPool.hpp lines
122-134, as observed on the shared state when the worker is scheduled:
if `running` is false (checked both at the top of the `while` and right after
`cv.wait` returns) the worker returns without touching the queue; if `running`
is true and the queue is empty the worker stays blocked in `cv.wait` (no step,
`none`); otherwise the wait predicate `!jobs.empty() || !running.load()` holds,
the worker moves `jobs.front()` out, pops it, unlocks and runs it. -/
def worker_step (s : PoolState τ) : Option (WorkerAction τ × PoolState τ) :=
  if s.running = false then
    some (WorkerAction.exitLoop, s)
  else
    match s.jobs with
    | [] => none
    | j :: rest => some (WorkerAction.runTask j, { s with jobs := rest })

/-- Repeats `worker_step` from a given state, collecting the jobs in the order
a worker takes them out of the queue (the execution-start order). -/
def drain (s : PoolState τ) : List (Job τ) :=
  if s.running then
    match h : s.jobs with
    | [] => []
    | j :: rest => j :: drain { s with jobs := rest }
  else
    []
termination_by s.jobs.length
decreasing_by simp [h]

/-- Models the destructor `~ThreadPool` in src/ThreadPool.hpp lines 52-58:
`running = false; cv.notify_all(); for (auto& thread : threads)
thread.join();`.  Returns the state it leaves behind and the ordered list of
observable teardown steps. -/
def destructor (s : PoolState τ) : PoolState τ × List DtorEvent :=
  ({ s with running := false },
    DtorEvent.setRunningFalse :: DtorEvent.notifyAll ::
      s.threads.map (fun _ => DtorEvent.joinThread))

/-- Models the lock/unlock/execute event sequence of one iteration of the
`worker_loop` body in src/ThreadPool.hpp lines 122-134, given the shared state
the worker observes when `cv.wait`'s predicate is satisfied.  On the stop path
the `unique_lock` destructor releases the lock as `return` runs; on the task
path `lock.unlock()` runs before `job.job()`.  When `running` is true and the
queue is empty the predicate is false and the worker stays blocked (`none`). -/
def iterationTrace (s : PoolState τ) : Option (List LockEvent) :=
  if s.running = false then
    some [LockEvent.lockAcquire, LockEvent.waitReturn, LockEvent.stopCheck,
      LockEvent.lockRelease, LockEvent.exitLoop]
  else
    match s.jobs with
    | [] => none
    | _ :: _ =>
        some [LockEvent.lockAcquire, LockEvent.waitReturn, LockEvent.stopCheck,
          LockEvent.popFront, LockEvent.lockRelease, LockEvent.execTask]

end V1

/-- Models the wrapped jobs the blocking API of src/unnamed/part_000 puts on
the queue: `run_tasks` wraps each submitted task in a closure that runs the
task and then calls `sem.release()`, and `run_loop` enqueues one closure per
loop index that invokes the loop body (with the captured index `i`) and then
calls `sem.release()`.  A detached job carries a bare payload. -/
inductive Payload (σ : Type) where
  | plain (t : σ)
  | taskThenRelease (t : σ)
  | indexThenRelease (i : Nat)
deriving DecidableEq, Repr

/-- Models the compile-time dispatch of `run_loop` in src/unnamed/part_000
lines 174-191: the loop body is either an index-taking callable
(`loop_body(i)`) or a zero-argument callable (`loop_body()`). -/
inductive LoopBody (β : Type) where
  | withIndex (f : Nat → β)
  | noArg (b : β)

/-- Models one invocation of the `run_loop` body for captured index `i`:
`if constexpr (std::is_invocable_v<Func>) loop_body(); else loop_body(i);`. -/
def invokeLoopBody {β : Type} : LoopBody β → Nat → β
  | LoopBody.withIndex f, i => f i
  | LoopBody.noArg b, _ => b

/-- Events on the `std::counting_semaphore sem(0)` of a single blocking call
(`run_tasks` or `run_loop`) on a batch of `N` wrapped tasks:
`complete i` is wrapped task `i` finishing on a worker (its body has run and
it calls `sem.release()`), and `acquire` is one `sem.acquire()` of the calling
thread's wait loop returning. -/
inductive SemEvent (N : Nat) where
  | complete (i : Fin N)
  | acquire
deriving DecidableEq, Repr

/-- Discipline of a counting semaphore with current count `c`: a `release`
increments the count, and an `acquire` can only return when the count is
positive, decrementing it.  `semTraceOk c tr` checks that the event sequence
`tr` respects this starting from count `c`; `run_tasks` and `run_loop`
construct their semaphore with initial count 0. -/
def semTraceOk {N : Nat} : Nat → List (SemEvent N) → Bool
  | _, [] => true
  | c, SemEvent.complete _ :: tr => semTraceOk (c + 1) tr
  | 0, SemEvent.acquire :: _ => false
  | c + 1, SemEvent.acquire :: tr => semTraceOk c tr

/-- Number of `sem.acquire()` returns the calling thread has observed in the
trace. -/
def acquireCount {N : Nat} (tr : List (SemEvent N)) : Nat :=
  tr.countP (fun e => e matches SemEvent.acquire)

/-- The batch indices whose wrapped task has completed (run its body and
released the semaphore), in completion order. -/
def completedIndices {N : Nat} (tr : List (SemEvent N)) : List (Fin N) :=
  tr.filterMap (fun e =>
    match e with
    | SemEvent.complete i => some i
    | SemEvent.acquire => none)

/-- How many times wrapped task `i` has recorded completion in the trace. -/
def completionCount {N : Nat} (tr : List (SemEvent N)) (i : Fin N) : Nat :=
  (completedIndices tr).count i

namespace V2

/-- Member initializers of `ThreadPool` in src/unnamed/part_000: `running =
true`, empty thread vector, empty job queue. -/
def initState (τ : Type) : PoolState τ :=
  { running := true, threads := [], jobs := [] }

/-- Models the grow loop of `reset` in src/unnamed/part_000 lines 105-108,
textually identical to the V1 loop: while the thread vector is shorter than
`num_threads`, `threads.emplace_back([this] { worker_loop(); })`. -/
def growThreads (ts : List ThreadCode) (num_threads : Nat) : List ThreadCode :=
  if h : ts.length < num_threads then
    growThreads (ts ++ [ThreadCode.workerLoop]) num_threads
  else
    ts
termination_by num_threads - ts.length
decreasing_by simp; omega

/-- Models `ThreadPool::reset` in src/unnamed/part_000 lines 103-112: grow
when `num_threads >= threads.size()`, otherwise throw
`std::runtime_error("Cannot downscale thread pool")` with nothing mutated. -/
def reset (s : PoolState τ) (num_threads : Nat) : PoolState τ × Option String :=
  if s.threads.length ≤ num_threads then
    ({ s with threads := growThreads s.threads num_threads }, none)
  else
    (s, some "Cannot downscale thread pool")

/-- Models the default constructor `ThreadPool()` in src/unnamed/part_000
lines 82-84: `reset(std::thread::hardware_concurrency())`, with the platform
hint passed as a parameter. -/
def constructDefault (τ : Type) (hardware_concurrency : Nat) :
    PoolState τ × Option String :=
  reset (initState τ) hardware_concurrency

/-- Models the explicit constructor `ThreadPool(size_t num_threads)` in
src/unnamed/part_000 lines 88-90: `reset(num_threads)`. -/
def constructWith (τ : Type) (num_threads : Nat) : PoolState τ × Option String :=
  reset (initState τ) num_threads

/-- Models `ThreadPool::size` in src/unnamed/part_000 lines 115-117: returns
`threads.size()`. -/
def size (s : PoolState τ) : Nat :=
  s.threads.length

/-- Models `ThreadPool::detach_task` in src/unnamed/part_000 lines 123-129:
inside a scoped lock, `jobs.emplace(std::move(task))` appends one job at the
tail; `cv.notify_one()` runs after the lock is released. -/
def detach_task (s : PoolState τ) (task : τ) : PoolState τ :=
  { s with jobs := s.jobs ++ [Job.mk task] }

/-- Models the span overload of `ThreadPool::detach_tasks` in
src/unnamed/part_000 lines 133-141: inside one scoped lock,
`for (auto& task : tasks) jobs.emplace(std::move(task))`; `cv.notify_all()`
runs after the lock is released. -/
def detach_tasks (s : PoolState τ) (tasks : List τ) : PoolState τ :=
  { s with jobs := tasks.foldl (fun q t => q ++ [Job.mk t]) s.jobs }

/-- Models the enqueue phase of `ThreadPool::run_tasks` in
src/unnamed/part_000 lines 147-158: inside one scoped lock, for each task of
the span it enqueues the wrapped closure `[&]() { task(); sem.release(); }`;
then `cv.notify_all()`.  The wait phase (lines 159-161) acquires the
semaphore `tasks.size()` times and is modelled by the semaphore traces. -/
def run_tasks_enqueue (s : PoolState (Payload σ)) (tasks : List σ) :
    PoolState (Payload σ) :=
  { s with
    jobs := tasks.foldl (fun q t => q ++ [Job.mk (Payload.taskThenRelease t)]) s.jobs }

/-- Models the wait loop of `run_tasks` in src/unnamed/part_000 lines 159-161:
`for (size_t i = 0; i < tasks.size(); i++) sem.acquire();` — the number of
`sem.acquire()` calls the caller must see return before `run_tasks` returns. -/
def run_tasks_waitCount (tasks : List σ) : Nat :=
  go 0 tasks.length
where
  go (i n : Nat) : Nat :=
    if i < n then go (i + 1) n + 1 else 0
  termination_by n - i
  decreasing_by omega

/-- Models the index sequence of the enqueue loop of `run_loop` in
src/unnamed/part_000 line 182: `for (induction_type i = start; i < end; ++i)`,
the successive values of `i`. -/
def loopIndices (start stop : Nat) : List Nat :=
  if start < stop then start :: loopIndices (start + 1) stop else []
termination_by stop - start
decreasing_by omega

/-- Models the enqueue phase of `ThreadPool::run_loop` in src/unnamed/part_000
lines 177-192: inside one scoped lock, for each `i` in `[start, end)` it
enqueues the closure `[&, i]() { ...invoke loop_body (with i, or with no
argument)...; sem.release(); }`, which captures the index `i` by value; then
`cv.notify_all()`. -/
def run_loop_enqueue (s : PoolState (Payload σ)) (start stop : Nat) :
    PoolState (Payload σ) :=
  { s with
    jobs := (loopIndices start stop).foldl
      (fun q i => q ++ [Job.mk (Payload.indexThenRelease i)]) s.jobs }

/-- Models the wait loop of `run_loop` in src/unnamed/part_000 lines 194-196:
`for (size_t i = start; i < end; i++) sem.acquire();` — the number of
`sem.acquire()` calls before `run_loop` returns. -/
def run_loop_waitCount (start stop : Nat) : Nat :=
  if start < stop then run_loop_waitCount (start + 1) stop + 1 else 0
termination_by stop - start
decreasing_by omega

/-- The body invocations performed when the jobs that `run_loop` enqueued are
executed, in queue order: the job for captured index `i` invokes the loop body
exactly once, as `loop_body(i)` or `loop_body()` depending on its shape. -/
def run_loop_invocations {β : Type} (body : LoopBody β) (start stop : Nat) :
    List β :=
  ((run_loop_enqueue (initState (Payload Unit)) start stop).jobs).filterMap
    (fun j =>
      match j.job with
      | Payload.indexThenRelease i => some (invokeLoopBody body i)
      | _ => none)

/-- Models one pass of `ThreadPool::worker_loop` in src/unnamed/part_000 lines
206-218, textually identical to the V1 loop: return on `!running.load()`,
block when running with an empty queue, otherwise pop and run the front job. -/
def worker_step (s : PoolState τ) : Option (WorkerAction τ × PoolState τ) :=
  if s.running = false then
    some (WorkerAction.exitLoop, s)
  else
    match s.jobs with
    | [] => none
    | j :: rest => some (WorkerAction.runTask j, { s with jobs := rest })

/-- Repeats `worker_step` from a given state, collecting the jobs in the order
a worker takes them out of the queue. -/
def drain (s : PoolState τ) : List (Job τ) :=
  if s.running then
    match h : s.jobs with
    | [] => []
    | j :: rest => j :: drain { s with jobs := rest }
  else
    []
termination_by s.jobs.length
decreasing_by simp [h]

/-- Models the destructor `~ThreadPool` in src/unnamed/part_000 lines 92-98:
`running = false; cv.notify_all(); for (auto& thread : threads)
thread.join();`. -/
def destructor (s : PoolState τ) : PoolState τ × List DtorEvent :=
  ({ s with running := false },
    DtorEvent.setRunningFalse :: DtorEvent.notifyAll ::
      s.threads.map (fun _ => DtorEvent.joinThread))

/-- Models the lock/unlock/execute event sequence of one iteration of the
`worker_loop` body in src/unnamed/part_000 lines 206-218, textually identical
to the V1 loop. -/
def iterationTrace (s : PoolState τ) : Option (List LockEvent) :=
  if s.running = false then
    some [LockEvent.lockAcquire, LockEvent.waitReturn, LockEvent.stopCheck,
      LockEvent.lockRelease, LockEvent.exitLoop]
  else
    match s.jobs with
    | [] => none
    | _ :: _ =>
        some [LockEvent.lockAcquire, LockEvent.waitReturn, LockEvent.stopCheck,
          LockEvent.popFront, LockEvent.lockRelease, LockEvent.execTask]

end V2

/-- Runs a lock-event sequence against a lock-held flag and checks that every
`execTask` event happens while the lock is not held. -/
def execNeverHoldsLock : Bool → List LockEvent → Bool
  | _, [] => true
  | _, LockEvent.lockAcquire :: evs => execNeverHoldsLock true evs
  | _, LockEvent.lockRelease :: evs => execNeverHoldsLock false evs
  | held, LockEvent.execTask :: evs => !held && execNeverHoldsLock held evs
  | held, _ :: evs => execNeverHoldsLock held evs

section Lemmas

variable {τ σ : Type}

/-- Pushing the elements of a list one by one at the tail of a queue appends
their images in order. -/
theorem foldl_push_eq {α β : Type} (f : β → α) (ts : List β) (q0 : List α) :
    ts.foldl (fun q t => q ++ [f t]) q0 = q0 ++ ts.map f := by
  induction ts generalizing q0 with
  | nil => simp
  | cons t ts ih => simp [ih, List.append_assoc]

/-- The V1 grow loop appends exactly `n - ts.length` worker-loop threads. -/
theorem V1_growThreads_eq (ts : List ThreadCode) (n : Nat) :
    V1.growThreads ts n
      = ts ++ List.replicate (n - ts.length) ThreadCode.workerLoop := by
  rw [V1.growThreads]
  by_cases h : ts.length < n
  · rw [dif_pos h]
    rw [V1_growThreads_eq (ts ++ [ThreadCode.workerLoop]) n]
    have h2 : n - ts.length = (n - (ts ++ [ThreadCode.workerLoop]).length) + 1 := by
      simp
      omega
    rw [h2]
    simp [List.replicate_succ, List.append_assoc]
  · rw [dif_neg h]
    have h2 : n - ts.length = 0 := by omega
    simp [h2]
termination_by n - ts.length
decreasing_by simp; omega

/-- The V2 grow loop appends exactly `n - ts.length` worker-loop threads. -/
theorem V2_growThreads_eq (ts : List ThreadCode) (n : Nat) :
    V2.growThreads ts n
      = ts ++ List.replicate (n - ts.length) ThreadCode.workerLoop := by
  rw [V2.growThreads]
  by_cases h : ts.length < n
  · rw [dif_pos h]
    rw [V2_growThreads_eq (ts ++ [ThreadCode.workerLoop]) n]
    have h2 : n - ts.length = (n - (ts ++ [ThreadCode.workerLoop]).length) + 1 := by
      simp
      omega
    rw [h2]
    simp [List.replicate_succ, List.append_assoc]
  · rw [dif_neg h]
    have h2 : n - ts.length = 0 := by omega
    simp [h2]
termination_by n - ts.length
decreasing_by simp; omega

/-- Successful `reset`, characterized: when not downscaling, it appends
`n - current` worker threads (V1). -/
theorem V1_reset_grow (s : PoolState τ) (n : Nat) (h : s.threads.length ≤ n) :
    V1.reset s n
      = ({ s with threads := s.threads
            ++ List.replicate (n - s.threads.length) ThreadCode.workerLoop },
         none) := by
  rw [V1.reset, if_pos h, V1_growThreads_eq]

/-- Successful `reset`, characterized: when not downscaling, it appends
`n - current` worker threads (V2). -/
theorem V2_reset_grow (s : PoolState τ) (n : Nat) (h : s.threads.length ≤ n) :
    V2.reset s n
      = ({ s with threads := s.threads
            ++ List.replicate (n - s.threads.length) ThreadCode.workerLoop },
         none) := by
  rw [V2.reset, if_pos h, V2_growThreads_eq]

/-- The enqueue loop of `run_loop` visits exactly the indices of the half-open
range `[start, stop)`, in increasing order. -/
theorem loopIndices_eq_range (start stop : Nat) :
    V2.loopIndices start stop = List.range' start (stop - start) := by
  rw [V2.loopIndices]
  by_cases h : start < stop
  · rw [if_pos h, loopIndices_eq_range (start + 1) stop]
    have h2 : stop - start = (stop - (start + 1)) + 1 := by omega
    rw [h2, List.range'_succ]
  · rw [if_neg h]
    have h2 : stop - start = 0 := by omega
    rw [h2, List.range']
termination_by stop - start
decreasing_by omega

/-- The wait loop of `run_loop` performs `stop - start` acquires. -/
theorem run_loop_waitCount_eq (start stop : Nat) :
    V2.run_loop_waitCount start stop = stop - start := by
  rw [V2.run_loop_waitCount]
  by_cases h : start < stop
  · rw [if_pos h, run_loop_waitCount_eq (start + 1) stop]
    omega
  · rw [if_neg h]
    omega
termination_by stop - start
decreasing_by omega

/-- The inner counter of the `run_tasks` wait loop counts `n - i` acquires. -/
theorem run_tasks_waitCount_go_eq (i n : Nat) :
    V2.run_tasks_waitCount.go i n = n - i := by
  rw [V2.run_tasks_waitCount.go]
  by_cases h : i < n
  · rw [if_pos h, run_tasks_waitCount_go_eq (i + 1) n]
    omega
  · rw [if_neg h]
    omega
termination_by n - i
decreasing_by omega

/-- The wait loop of `run_tasks` performs one acquire per submitted task. -/
theorem run_tasks_waitCount_eq (tasks : List σ) :
    V2.run_tasks_waitCount tasks = tasks.length := by
  rw [V2.run_tasks_waitCount, run_tasks_waitCount_go_eq]
  omega

/-- Semaphore safety: starting from count `c`, the number of acquires that can
return is bounded by `c` plus the number of releases in the trace. -/
theorem semTraceOk_acquire_le {N : Nat} (tr : List (SemEvent N)) :
    ∀ c : Nat, semTraceOk c tr = true →
      acquireCount tr ≤ c + (completedIndices tr).length := by
  induction tr with
  | nil =>
      intro c _
      simp [acquireCount, completedIndices]
  | cons e tr ih =>
      intro c h
      cases e with
      | complete i =>
          rw [semTraceOk] at h
          have h2 := ih (c + 1) h
          simp only [acquireCount, completedIndices, List.countP_cons,
            List.filterMap_cons] at *
          simp at *
          omega
      | acquire =>
          cases c with
          | zero => simp [semTraceOk] at h
          | succ c =>
              rw [semTraceOk] at h
              have h2 := ih c h
              simp only [acquireCount, completedIndices, List.countP_cons,
                List.filterMap_cons] at *
              simp at *
              omega

/-- If at least `N` completions of a batch of `N` tasks are on record and no
task completed more than once, then every task completed exactly once. -/
theorem completed_exactly_once {N : Nat} (tr : List (SemEvent N))
    (hlen : N ≤ (completedIndices tr).length)
    (honce : ∀ i : Fin N, completionCount tr i ≤ 1) :
    ∀ i : Fin N, completionCount tr i = 1 := by
  intro i
  have hnodup : (completedIndices tr).Nodup := by
    rw [List.nodup_iff_count_le_one]
    intro a
    exact honce a
  have hcard : (completedIndices tr).toFinset.card = (completedIndices tr).length :=
    List.toFinset_card_of_nodup hnodup
  have hle : (completedIndices tr).length ≤ Fintype.card (Fin N) := by
    rw [← hcard]
    exact Finset.card_le_univ _
  rw [Fintype.card_fin] at hle
  have hlen2 : (completedIndices tr).length = N := le_antisymm hle hlen
  have huniv : (completedIndices tr).toFinset = Finset.univ := by
    apply Finset.eq_univ_of_card
    rw [hcard, hlen2, Fintype.card_fin]
  have hmem : i ∈ completedIndices tr := by
    have h3 : i ∈ (completedIndices tr).toFinset := by
      rw [huniv]
      exact Finset.mem_univ i
    simpa using h3
  have h1 : 0 < completionCount tr i := by
    rw [completionCount]
    exact List.count_pos_iff.mpr hmem
  have h2 := honce i
  omega

/-- Draining a running V1 pool yields the queued jobs in queue order. -/
theorem V1_drain_eq (s : PoolState τ) (h : s.running = true) :
    V1.drain s = s.jobs := by
  rw [V1.drain, h]
  simp only [if_true]
  split
  next heq => exact heq.symm
  next j rest heq =>
    rw [heq,
      V1_drain_eq { running := true, threads := s.threads, jobs := rest } rfl]
termination_by s.jobs.length
decreasing_by rename_i heq2; rw [heq2, List.length_cons]; omega

/-- Draining a running V2 pool yields the queued jobs in queue order. -/
theorem V2_drain_eq (s : PoolState τ) (h : s.running = true) :
    V2.drain s = s.jobs := by
  rw [V2.drain, h]
  simp only [if_true]
  split
  next heq => exact heq.symm
  next j rest heq =>
    rw [heq,
      V2_drain_eq { running := true, threads := s.threads, jobs := rest } rfl]
termination_by s.jobs.length
decreasing_by rename_i heq2; rw [heq2, List.length_cons]; omega

/-- Mapping to `some` under `filterMap` is `map`. -/
theorem filterMap_some_map {α β : Type} (g : α → β) (l : List α) :
    l.filterMap (fun a => some (g a)) = l.map g := by
  induction l with
  | nil => rfl
  | cons a l ih => simp [List.filterMap_cons, ih]

/-- The V1 batch enqueue appends the batch at the queue tail in order. -/
theorem V1_detach_tasks_jobs (s : PoolState τ) (ts : List τ) :
    (V1.detach_tasks s ts).jobs = s.jobs ++ ts.map Job.mk := by
  rw [V1.detach_tasks]
  exact foldl_push_eq _ _ _

/-- The V2 batch enqueue appends the batch at the queue tail in order. -/
theorem V2_detach_tasks_jobs (s : PoolState τ) (ts : List τ) :
    (V2.detach_tasks s ts).jobs = s.jobs ++ ts.map Job.mk := by
  rw [V2.detach_tasks]
  exact foldl_push_eq _ _ _

/-- The enqueue phase of `run_tasks` appends one wrapped job per task at the
queue tail, in batch order. -/
theorem run_tasks_enqueue_jobs (s : PoolState (Payload σ)) (tasks : List σ) :
    (V2.run_tasks_enqueue s tasks).jobs
      = s.jobs ++ tasks.map (fun t => Job.mk (Payload.taskThenRelease t)) := by
  rw [V2.run_tasks_enqueue]
  exact foldl_push_eq _ _ _

/-- The enqueue phase of `run_loop` appends one wrapped job per loop index at
the queue tail, in index order. -/
theorem run_loop_enqueue_jobs (s : PoolState (Payload σ)) (start stop : Nat) :
    (V2.run_loop_enqueue s start stop).jobs
      = s.jobs ++ (V2.loopIndices start stop).map
          (fun i => Job.mk (Payload.indexThenRelease i)) := by
  rw [V2.run_loop_enqueue]
  exact foldl_push_eq _ _ _

/-- The two revisions have the same `reset`. -/
theorem reset_eq_V1_V2 (s : PoolState τ) (n : Nat) :
    V1.reset s n = V2.reset s n := by
  by_cases h : s.threads.length ≤ n
  · rw [V1_reset_grow s n h, V2_reset_grow s n h]
  · rw [V1.reset, V2.reset, if_neg h, if_neg h]

/-- The two revisions drain the queue identically. -/
theorem drain_eq_V1_V2 (s : PoolState τ) :
    V1.drain s = V2.drain s := by
  by_cases h : s.running = true
  · rw [V1_drain_eq s h, V2_drain_eq s h]
  · have h2 : s.running = false := by
      cases hr : s.running
      · rfl
      · exact absurd hr h
    rw [V1.drain, V2.drain, h2]
    simp

end Lemmas

section Claims

variable {τ σ : Type}

/-- C1 counterexample: when the platform hardware-concurrency hint returns 0,
the default constructor of both revisions calls `reset(0)` on an empty pool,
which starts zero worker threads — `size()` is 0, not at least 1, so the
claimed minimum-of-one fallback does not exist in the code. -/
theorem default_construct_hint_zero_cex :
    V1.size (V1.constructDefault Nat 0).1 = 0
    ∧ V2.size (V2.constructDefault Nat 0).1 = 0
    ∧ ¬ 1 ≤ V1.size (V1.constructDefault Nat 0).1
    ∧ ¬ 1 ≤ V2.size (V2.constructDefault Nat 0).1 := by
  have h1 := V1_reset_grow (V1.initState Nat) 0 (by simp [V1.initState])
  have h2 := V2_reset_grow (V2.initState Nat) 0 (by simp [V2.initState])
  simp [V1.initState, V2.initState] at h1 h2
  refine ⟨?_, ?_, ?_, ?_⟩ <;>
    simp [V1.constructDefault, V2.constructDefault, V1.initState, V2.initState,
      h1, h2, V1.size, V2.size]

/-- C1 amended: default construction calls `reset` with the
hardware-concurrency hint, always succeeds, and makes the pool size exactly
equal to the hint; there is no minimum-of-one fallback, so a hint of zero
yields a pool with zero worker threads. -/
theorem default_construct_size_eq_hint (τ : Type) (hint : Nat) :
    (V1.constructDefault τ hint).2 = none
    ∧ V1.size (V1.constructDefault τ hint).1 = hint
    ∧ (V2.constructDefault τ hint).2 = none
    ∧ V2.size (V2.constructDefault τ hint).1 = hint := by
  have h1 := V1_reset_grow (V1.initState τ) hint (by simp [V1.initState])
  have h2 := V2_reset_grow (V2.initState τ) hint (by simp [V2.initState])
  refine ⟨?_, ?_, ?_, ?_⟩
  · rw [V1.constructDefault, h1]
  · rw [V1.constructDefault, h1]
    simp [V1.size, V1.initState]
  · rw [V2.constructDefault, h2]
  · rw [V2.constructDefault, h2]
    simp [V2.size, V2.initState]

/-- C2: calling `reset` with `n` strictly below the current thread count `K`
fails synchronously in both revisions — the `std::runtime_error` is thrown
before any mutation, so the returned state is the original one, the thread
count is still `K`, and the thread list is untouched. -/
theorem reset_downscale_rejected (τ : Type) (s : PoolState τ) (n : Nat)
    (h : n < V1.size s) :
    V1.reset s n = (s, some "Cannot downscale thread pool")
    ∧ V2.reset s n = (s, some "Cannot downscale thread pool")
    ∧ V1.size (V1.reset s n).1 = V1.size s
    ∧ V2.size (V2.reset s n).1 = V2.size s
    ∧ (V1.reset s n).1.threads = s.threads
    ∧ (V2.reset s n).1.threads = s.threads := by
  have h1 : ¬ (s.threads.length ≤ n) := by
    rw [V1.size] at h
    omega
  have hv1 : V1.reset s n = (s, some "Cannot downscale thread pool") := by
    rw [V1.reset, if_neg h1]
  have hv2 : V2.reset s n = (s, some "Cannot downscale thread pool") := by
    rw [V2.reset, if_neg h1]
  exact ⟨hv1, hv2, by rw [hv1], by rw [hv2], by rw [hv1], by rw [hv2]⟩

/-- Witness for C2 at a pool with one worker thread and `reset(0)`. -/
theorem reset_downscale_rejected_witness :
    0 < V1.size (⟨true, [ThreadCode.workerLoop], []⟩ : PoolState Nat)
    ∧ (V1.reset (⟨true, [ThreadCode.workerLoop], []⟩ : PoolState Nat) 0
          = (⟨true, [ThreadCode.workerLoop], []⟩, some "Cannot downscale thread pool")
        ∧ V2.reset (⟨true, [ThreadCode.workerLoop], []⟩ : PoolState Nat) 0
          = (⟨true, [ThreadCode.workerLoop], []⟩, some "Cannot downscale thread pool")
        ∧ V1.size (V1.reset (⟨true, [ThreadCode.workerLoop], []⟩ : PoolState Nat) 0).1
          = V1.size (⟨true, [ThreadCode.workerLoop], []⟩ : PoolState Nat)
        ∧ V2.size (V2.reset (⟨true, [ThreadCode.workerLoop], []⟩ : PoolState Nat) 0).1
          = V2.size (⟨true, [ThreadCode.workerLoop], []⟩ : PoolState Nat)
        ∧ (V1.reset (⟨true, [ThreadCode.workerLoop], []⟩ : PoolState Nat) 0).1.threads
          = [ThreadCode.workerLoop]
        ∧ (V2.reset (⟨true, [ThreadCode.workerLoop], []⟩ : PoolState Nat) 0).1.threads
          = [ThreadCode.workerLoop]) :=
  ⟨by decide,
    reset_downscale_rejected Nat ⟨true, [ThreadCode.workerLoop], []⟩ 0 (by decide)⟩

/-- C6: for a pool of size `K` and `M > K`, `reset(M)` appends exactly
`M - K` new threads, all running the worker loop, after which `size() = M`;
and for every argument `n` the pool size never shrinks. -/
theorem reset_grow_only (τ : Type) (s : PoolState τ) (M : Nat)
    (h : V2.size s < M) :
    V2.reset s M
        = ({ s with threads := s.threads
              ++ List.replicate (M - V2.size s) ThreadCode.workerLoop }, none)
    ∧ (V2.reset s M).1.threads.length
        = s.threads.length + (M - V2.size s)
    ∧ V2.size (V2.reset s M).1 = M
    ∧ 0 < M - V2.size s
    ∧ (∀ n : Nat, V2.size s ≤ V2.size (V2.reset s n).1) := by
  have hlt : s.threads.length < M := h
  have hle : s.threads.length ≤ M := Nat.le_of_lt hlt
  have hg := V2_reset_grow s M hle
  refine ⟨?_, ?_, ?_, ?_, ?_⟩
  · rw [V2.size]
    exact hg
  · rw [hg, V2.size]
    simp
  · rw [V2.size, hg]
    simp
    omega
  · rw [V2.size]
    omega
  · intro n
    by_cases hn : s.threads.length ≤ n
    · rw [V2.size, V2.size, V2_reset_grow s n hn]
      simp
    · rw [V2.reset, if_neg hn]

/-- Witness for C6: growing an empty pool to two threads. -/
theorem reset_grow_only_witness :
    V2.size (⟨true, [], []⟩ : PoolState Nat) < 2
    ∧ (V2.reset (⟨true, [], []⟩ : PoolState Nat) 2
          = (⟨true, [ThreadCode.workerLoop, ThreadCode.workerLoop], []⟩, none)
        ∧ (V2.reset (⟨true, [], []⟩ : PoolState Nat) 2).1.threads.length
          = 0 + (2 - V2.size (⟨true, [], []⟩ : PoolState Nat))
        ∧ V2.size (V2.reset (⟨true, [], []⟩ : PoolState Nat) 2).1 = 2
        ∧ 0 < 2 - V2.size (⟨true, [], []⟩ : PoolState Nat)
        ∧ ∀ n : Nat,
            V2.size (⟨true, [], []⟩ : PoolState Nat)
              ≤ V2.size (V2.reset (⟨true, [], []⟩ : PoolState Nat) n).1) :=
  ⟨by decide, reset_grow_only Nat ⟨true, [], []⟩ 2 (by decide)⟩

/-- C9: `reset(n)` raises the invalid-operation error if and only if `n` is
strictly below the current thread count, in both revisions; in particular
`reset` at exactly the current count succeeds, adds no threads, and leaves
the pool unchanged. -/
theorem reset_error_iff_downscale (τ : Type) (s : PoolState τ) (n : Nat) :
    ((V1.reset s n).2.isSome = true ↔ n < V1.size s)
    ∧ ((V2.reset s n).2.isSome = true ↔ n < V2.size s)
    ∧ V1.reset s (V1.size s) = (s, none)
    ∧ V2.reset s (V2.size s) = (s, none)
    ∧ V1.size (V1.reset s (V1.size s)).1 = V1.size s
    ∧ V2.size (V2.reset s (V2.size s)).1 = V2.size s := by
  have hiff1 : (V1.reset s n).2.isSome = true ↔ n < V1.size s := by
    rw [V1.size]
    by_cases hle : s.threads.length ≤ n
    · rw [V1.reset, if_pos hle]
      simp
      omega
    · rw [V1.reset, if_neg hle]
      simp
      omega
  have hiff2 : (V2.reset s n).2.isSome = true ↔ n < V2.size s := by
    rw [V2.size]
    by_cases hle : s.threads.length ≤ n
    · rw [V2.reset, if_pos hle]
      simp
      omega
    · rw [V2.reset, if_neg hle]
      simp
      omega
  have hsame1 : V1.reset s (V1.size s) = (s, none) := by
    rw [V1.size, V1_reset_grow s s.threads.length (le_refl _)]
    simp
  have hsame2 : V2.reset s (V2.size s) = (s, none) := by
    rw [V2.size, V2_reset_grow s s.threads.length (le_refl _)]
    simp
  exact ⟨hiff1, hiff2, hsame1, hsame2, by rw [hsame1], by rw [hsame2]⟩

/-- C10: the operations the two revisions share — construction (default and
explicit), `reset`, `size`, `detach_task`, the batch `detach_tasks`, the
worker dispatch loop (single step, full drain, and the lock-event trace of
one iteration), and the destructor — are observationally equivalent: on equal
inputs they produce equal queue contents, thread lists, error results and
worker steps. -/
theorem revisions_observationally_equivalent (τ : Type) :
    V1.initState τ = V2.initState τ
    ∧ (∀ n : Nat, V1.constructDefault τ n = V2.constructDefault τ n)
    ∧ (∀ n : Nat, V1.constructWith τ n = V2.constructWith τ n)
    ∧ (∀ (s : PoolState τ) (n : Nat), V1.reset s n = V2.reset s n)
    ∧ (∀ s : PoolState τ, V1.size s = V2.size s)
    ∧ (∀ (s : PoolState τ) (t : τ), V1.detach_task s t = V2.detach_task s t)
    ∧ (∀ (s : PoolState τ) (ts : List τ),
        V1.detach_tasks s ts = V2.detach_tasks s ts)
    ∧ (∀ s : PoolState τ, V1.worker_step s = V2.worker_step s)
    ∧ (∀ s : PoolState τ, V1.drain s = V2.drain s)
    ∧ (∀ s : PoolState τ, V1.destructor s = V2.destructor s)
    ∧ (∀ s : PoolState τ, V1.iterationTrace s = V2.iterationTrace s) := by
  refine ⟨rfl, ?_, ?_, ?_, fun s => rfl, fun s t => rfl, fun s ts => rfl,
    fun s => rfl, drain_eq_V1_V2, fun s => rfl, fun s => rfl⟩
  · intro n
    exact reset_eq_V1_V2 _ n
  · intro n
    exact reset_eq_V1_V2 _ n
  · intro s n
    exact reset_eq_V1_V2 s n

/-- C3: for every batch of `N ≥ 0` tasks, `run_tasks` enqueues all `N`
wrapped tasks (one release-signalling wrapper per task, appended at the queue
tail), and its wait loop performs exactly `N = tasks.size()` semaphore
acquires.  In every execution respecting the counting-semaphore discipline
(initial count 0; an acquire returns only when the count is positive; each
wrapped task releases at most once because each queued job runs at most once)
in which the caller has observed all `N` acquires — i.e. `run_tasks` has
returned — every one of the `N` tasks has recorded completion exactly once.
The discipline admits completions that precede the first acquire, so tasks
finishing before the caller starts waiting are tolerated. -/
theorem run_tasks_returns_after_all_completions (σ : Type)
    (s : PoolState (Payload σ)) (tasks : List σ)
    (tr : List (SemEvent tasks.length))
    (hok : semTraceOk 0 tr = true)
    (honce : ∀ i : Fin tasks.length, completionCount tr i ≤ 1)
    (hret : acquireCount tr = V2.run_tasks_waitCount tasks) :
    ((V2.run_tasks_enqueue s tasks).jobs
        = s.jobs ++ tasks.map (fun t => Job.mk (Payload.taskThenRelease t)))
    ∧ (V2.run_tasks_enqueue s tasks).jobs.length
        = s.jobs.length + tasks.length
    ∧ (∀ i : Fin tasks.length, completionCount tr i = 1) := by
  have h1 := run_tasks_enqueue_jobs s tasks
  refine ⟨h1, by rw [h1]; simp, ?_⟩
  have h2 : acquireCount tr = tasks.length := by
    rw [hret, run_tasks_waitCount_eq]
  have h3 := semTraceOk_acquire_le tr 0 hok
  rw [h2] at h3
  simp at h3
  exact completed_exactly_once tr h3 honce

/-- Witness for C3 on the two-task batch `[5, 7]` with a semaphore trace in
which both tasks complete before the caller performs its two acquires
(signal-then-wait ordering). -/
theorem run_tasks_returns_after_all_completions_witness :
    semTraceOk 0 [SemEvent.complete (0 : Fin 2), SemEvent.complete 1,
        SemEvent.acquire, SemEvent.acquire] = true
    ∧ (∀ i : Fin 2, completionCount [SemEvent.complete (0 : Fin 2),
        SemEvent.complete 1, SemEvent.acquire, SemEvent.acquire] i ≤ 1)
    ∧ acquireCount [SemEvent.complete (0 : Fin 2), SemEvent.complete 1,
        SemEvent.acquire, SemEvent.acquire]
      = V2.run_tasks_waitCount ([5, 7] : List Nat)
    ∧ (((V2.run_tasks_enqueue (V2.initState (Payload Nat)) [5, 7]).jobs
          = (V2.initState (Payload Nat)).jobs
              ++ ([5, 7] : List Nat).map
                  (fun t => Job.mk (Payload.taskThenRelease t)))
        ∧ (V2.run_tasks_enqueue (V2.initState (Payload Nat)) [5, 7]).jobs.length
            = (V2.initState (Payload Nat)).jobs.length
                + ([5, 7] : List Nat).length
        ∧ (∀ i : Fin ([5, 7] : List Nat).length,
            completionCount [SemEvent.complete (0 : Fin 2),
              SemEvent.complete (1 : Fin 2),
              SemEvent.acquire, SemEvent.acquire] i = 1)) :=
  ⟨by decide, by decide, by rw [run_tasks_waitCount_eq]; decide,
    run_tasks_returns_after_all_completions Nat (V2.initState (Payload Nat))
      [5, 7]
      [SemEvent.complete (0 : Fin 2), SemEvent.complete (1 : Fin 2),
        SemEvent.acquire, SemEvent.acquire]
      (by decide) (by decide) (by rw [run_tasks_waitCount_eq]; decide)⟩

/-- C4: `run_loop` enqueues one wrapped task per integer index of the
half-open range `[start, stop)`, in order; the visited indices are exactly the
range (each appearing once, by nodup), the wrapped jobs invoke the body
exactly once per index — with the index for an index-taking body, with no
argument (one invocation per index) for a zero-argument body; the wait loop
acquires `stop - start` times, and when `start == stop` or `start > stop` the
call enqueues nothing, acquires nothing, and leaves the pool unchanged. -/
theorem run_loop_one_task_per_index (σ β : Type) (s : PoolState (Payload σ))
    (start stop : Nat) (f : Nat → β) (b : β) :
    ((V2.run_loop_enqueue s start stop).jobs
        = s.jobs ++ (V2.loopIndices start stop).map
            (fun i => Job.mk (Payload.indexThenRelease i)))
    ∧ V2.loopIndices start stop = List.range' start (stop - start)
    ∧ (V2.loopIndices start stop).Nodup
    ∧ (∀ i : Nat, i ∈ V2.loopIndices start stop ↔ start ≤ i ∧ i < stop)
    ∧ V2.run_loop_invocations (LoopBody.withIndex f) start stop
        = (V2.loopIndices start stop).map f
    ∧ V2.run_loop_invocations (LoopBody.noArg b) start stop
        = List.replicate (stop - start) b
    ∧ V2.run_loop_waitCount start stop = stop - start
    ∧ (stop ≤ start →
        V2.run_loop_enqueue s start stop = s
          ∧ V2.run_loop_waitCount start stop = 0) := by
  have hidx := loopIndices_eq_range start stop
  have hinv : ∀ body : LoopBody β,
      V2.run_loop_invocations body start stop
        = (V2.loopIndices start stop).map (fun i => invokeLoopBody body i) := by
    intro body
    rw [V2.run_loop_invocations, run_loop_enqueue_jobs]
    rw [show (V2.initState (Payload Unit)).jobs
        = ([] : List (Job (Payload Unit))) from rfl]
    rw [List.nil_append, List.filterMap_map]
    exact filterMap_some_map (fun i => invokeLoopBody body i) _
  refine ⟨run_loop_enqueue_jobs s start stop, hidx, ?_, ?_, ?_, ?_,
    run_loop_waitCount_eq start stop, ?_⟩
  · rw [hidx]
    exact List.nodup_range' _ _
  · intro i
    rw [hidx, List.mem_range'_1]
    omega
  · exact hinv (LoopBody.withIndex f)
  · rw [hinv (LoopBody.noArg b)]
    have hlb : (fun i => invokeLoopBody (LoopBody.noArg b) i)
        = fun _ : Nat => b := rfl
    rw [hlb, List.map_const', hidx, List.length_range']
  · intro hle
    have hnil : V2.loopIndices start stop = [] := by
      rw [hidx]
      have h0 : stop - start = 0 := by omega
      rw [h0]
      rfl
    constructor
    · rw [V2.run_loop_enqueue, hnil]
      rfl
    · rw [run_loop_waitCount_eq]
      omega

/-- Witness for C4 on the empty range `[3, 3)`: no job enqueued, no acquire,
pool unchanged; and on the fact that the conclusions hold for the concrete
arguments `start = 3`, `stop = 3`. -/
theorem run_loop_one_task_per_index_witness :
    ((V2.run_loop_enqueue (⟨true, [], []⟩ : PoolState (Payload Unit)) 3 3).jobs
        = (⟨true, [], []⟩ : PoolState (Payload Unit)).jobs
            ++ (V2.loopIndices 3 3).map
                (fun i => Job.mk (Payload.indexThenRelease i)))
    ∧ V2.loopIndices 3 3 = List.range' 3 (3 - 3)
    ∧ (V2.loopIndices 3 3).Nodup
    ∧ (∀ i : Nat, i ∈ V2.loopIndices 3 3 ↔ 3 ≤ i ∧ i < 3)
    ∧ V2.run_loop_invocations (LoopBody.withIndex (fun n : Nat => n)) 3 3
        = (V2.loopIndices 3 3).map (fun n : Nat => n)
    ∧ V2.run_loop_invocations (LoopBody.noArg (7 : Nat)) 3 3
        = List.replicate (3 - 3) 7
    ∧ V2.run_loop_waitCount 3 3 = 3 - 3
    ∧ (3 ≤ 3 →
        V2.run_loop_enqueue (⟨true, [], []⟩ : PoolState (Payload Unit)) 3 3
            = (⟨true, [], []⟩ : PoolState (Payload Unit))
          ∧ V2.run_loop_waitCount 3 3 = 0) :=
  run_loop_one_task_per_index Unit Nat ⟨true, [], []⟩ 3 3 (fun n => n) 7

/-- C5: the task queue is strict FIFO in the src/ThreadPool.hpp revision:
`detach_task` appends at the tail, `detach_tasks` appends the batch in
submission order, the worker's dequeue removes and returns the head task, and
repeatedly stepping the worker loop on a running pool removes the tasks in
exactly their insertion order. -/
theorem queue_strict_fifo (τ : Type) (s : PoolState τ) (t : τ) (ts : List τ)
    (j : Job τ) (rest : List (Job τ)) (hrun : s.running = true) :
    ((V1.detach_task s t).jobs = s.jobs ++ [Job.mk t])
    ∧ ((V1.detach_tasks s ts).jobs = s.jobs ++ ts.map Job.mk)
    ∧ (s.jobs = j :: rest →
        V1.worker_step s
          = some (WorkerAction.runTask j, { s with jobs := rest }))
    ∧ V1.drain s = s.jobs
    ∧ V1.drain (V1.detach_tasks s ts) = s.jobs ++ ts.map Job.mk := by
  refine ⟨rfl, V1_detach_tasks_jobs s ts, ?_, V1_drain_eq s hrun, ?_⟩
  · intro hj
    rw [V1.worker_step, if_neg (by rw [hrun]; simp), hj]
  · have hr2 : (V1.detach_tasks s ts).running = true := hrun
    rw [V1_drain_eq _ hr2, V1_detach_tasks_jobs]

/-- Witness for C5 at a running pool holding one job, detaching one task and
a batch of two. -/
theorem queue_strict_fifo_witness :
    (⟨true, [], [Job.mk 9]⟩ : PoolState Nat).running = true
    ∧ (((V1.detach_task (⟨true, [], [Job.mk 9]⟩ : PoolState Nat) 1).jobs
          = [Job.mk 9] ++ [Job.mk 1])
        ∧ ((V1.detach_tasks (⟨true, [], [Job.mk 9]⟩ : PoolState Nat) [2, 3]).jobs
          = [Job.mk 9] ++ ([2, 3] : List Nat).map Job.mk)
        ∧ (([Job.mk 9] : List (Job Nat)) = Job.mk 9 :: [] →
            V1.worker_step (⟨true, [], [Job.mk 9]⟩ : PoolState Nat)
              = some (WorkerAction.runTask (Job.mk 9), ⟨true, [], []⟩))
        ∧ V1.drain (⟨true, [], [Job.mk 9]⟩ : PoolState Nat) = [Job.mk 9]
        ∧ V1.drain (V1.detach_tasks (⟨true, [], [Job.mk 9]⟩ : PoolState Nat) [2, 3])
          = [Job.mk 9] ++ ([2, 3] : List Nat).map Job.mk) :=
  ⟨rfl, queue_strict_fifo Nat ⟨true, [], [Job.mk 9]⟩ 1 [2, 3]
    (Job.mk 9) [] rfl⟩

/-- C7: the destructor sets the running flag to false, broadcasts one wakeup
to all workers, and then joins every worker thread (one join per thread, after
the flag write and the broadcast) before teardown completes; the job queue is
left exactly as it was — a worker stepping after shutdown observes the stop
signal and exits without taking any task, so queued-but-unstarted tasks are
discarded and never executed (draining a stopped pool runs nothing).  Both
revisions have the same destructor. -/
theorem destructor_joins_all_discards_queue (τ : Type) (s : PoolState τ) :
    (V1.destructor s).1.running = false
    ∧ (V1.destructor s).1.jobs = s.jobs
    ∧ (V1.destructor s).1.threads = s.threads
    ∧ (V1.destructor s).2
        = DtorEvent.setRunningFalse :: DtorEvent.notifyAll ::
            List.replicate s.threads.length DtorEvent.joinThread
    ∧ (V1.destructor s).2.count DtorEvent.joinThread = s.threads.length
    ∧ V1.worker_step (V1.destructor s).1
        = some (WorkerAction.exitLoop, (V1.destructor s).1)
    ∧ V1.drain (V1.destructor s).1 = []
    ∧ V2.destructor s = V1.destructor s := by
  refine ⟨rfl, rfl, rfl, ?_, ?_, rfl, ?_, rfl⟩
  · rw [V1.destructor]
    simp [List.map_const']
  · rw [V1.destructor]
    simp [List.map_const', List.count_cons, List.count_replicate_self]
  · rw [V1.drain]
    simp [V1.destructor]

/-- C8: in every iteration of the worker dispatch loop (both revisions), the
queue's exclusive lock is never held while a task body executes: whenever the
iteration's event trace contains a task execution, the head job was popped,
then the lock was released, and only then the task body ran, with no
re-acquisition in between — so task execution happens strictly outside the
lock. -/
theorem task_execution_outside_lock (τ : Type) (s : PoolState τ)
    (evs : List LockEvent)
    (h : V1.iterationTrace s = some evs ∨ V2.iterationTrace s = some evs) :
    execNeverHoldsLock false evs = true
    ∧ (LockEvent.execTask ∈ evs →
        ∃ pre mid : List LockEvent,
          evs = pre ++ LockEvent.popFront :: mid
              ++ [LockEvent.lockRelease, LockEvent.execTask]
          ∧ LockEvent.lockAcquire ∉ mid) := by
  have h2 : V1.iterationTrace s = some evs := by
    rcases h with h | h
    · exact h
    · exact h
  have hevs :
      evs = [LockEvent.lockAcquire, LockEvent.waitReturn, LockEvent.stopCheck,
          LockEvent.lockRelease, LockEvent.exitLoop]
      ∨ evs = [LockEvent.lockAcquire, LockEvent.waitReturn, LockEvent.stopCheck,
          LockEvent.popFront, LockEvent.lockRelease, LockEvent.execTask] := by
    rw [V1.iterationTrace] at h2
    by_cases hr : s.running = false
    · rw [if_pos hr] at h2
      left
      exact (Option.some_inj.mp h2).symm
    · rw [if_neg hr] at h2
      cases hj : s.jobs with
      | nil =>
          rw [hj] at h2
          exact Option.noConfusion h2
      | cons j rest =>
          rw [hj] at h2
          right
          exact (Option.some_inj.mp h2).symm
  rcases hevs with he | he
  · subst he
    refine ⟨by decide, ?_⟩
    intro hm
    exact absurd hm (by decide)
  · subst he
    refine ⟨by decide, fun _ => ?_⟩
    exact ⟨[LockEvent.lockAcquire, LockEvent.waitReturn, LockEvent.stopCheck],
      [], by decide, by decide⟩

/-- Witness for C8 at a running pool with one queued job, whose iteration
trace pops the job, releases the lock, and then executes it. -/
theorem task_execution_outside_lock_witness :
    (V1.iterationTrace (⟨true, [], [Job.mk 0]⟩ : PoolState Nat)
        = some [LockEvent.lockAcquire, LockEvent.waitReturn, LockEvent.stopCheck,
            LockEvent.popFront, LockEvent.lockRelease, LockEvent.execTask]
      ∨ V2.iterationTrace (⟨true, [], [Job.mk 0]⟩ : PoolState Nat)
        = some [LockEvent.lockAcquire, LockEvent.waitReturn, LockEvent.stopCheck,
            LockEvent.popFront, LockEvent.lockRelease, LockEvent.execTask])
    ∧ (execNeverHoldsLock false [LockEvent.lockAcquire, LockEvent.waitReturn,
          LockEvent.stopCheck, LockEvent.popFront, LockEvent.lockRelease,
          LockEvent.execTask] = true
        ∧ (LockEvent.execTask ∈ [LockEvent.lockAcquire, LockEvent.waitReturn,
            LockEvent.stopCheck, LockEvent.popFront, LockEvent.lockRelease,
            LockEvent.execTask] →
          ∃ pre mid : List LockEvent,
            [LockEvent.lockAcquire, LockEvent.waitReturn, LockEvent.stopCheck,
                LockEvent.popFront, LockEvent.lockRelease, LockEvent.execTask]
              = pre ++ LockEvent.popFront :: mid
                  ++ [LockEvent.lockRelease, LockEvent.execTask]
            ∧ LockEvent.lockAcquire ∉ mid)) :=
  ⟨Or.inl (by decide),
    task_execution_outside_lock Nat ⟨true, [], [Job.mk 0]⟩
      [LockEvent.lockAcquire, LockEvent.waitReturn, LockEvent.stopCheck,
        LockEvent.popFront, LockEvent.lockRelease, LockEvent.execTask]
      (Or.inl (by decide))⟩

end Claims

end ThreadPoolModel
